import Mathlib

/-!
Verification of the tiled-query retrieval and deduplication engine of the
Asia Railway data extractor.  The repository has two variants of the same
script: `src/extract.js` (suffix `JS` below where they differ) and
`src/unnamed/part_000` (suffix `P`).  Coordinates are modelled as rationals;
JavaScript's `Math.round` / `toFixed` round half toward `+∞`, i.e.
`⌊x + 1/2⌋`.  The two genuinely non-embeddable ingredients — the haversine
distance (floating-point trigonometry) and `localeCompare` (ICU collation) —
are taken as parameters (`dist`, `nameLe`), so every theorem below holds for
every choice of them.
-/

set_option maxHeartbeats 1000000

namespace AsiaRail

/-- JavaScript `Math.round` (also the rounding used by `toFixed`):
round to the nearest integer, ties toward `+∞`. -/
def jsRound (q : ℚ) : ℤ := ⌊q + 1/2⌋

/-- Coordinate reduction to 5 decimal places:
`Math.round(x * 100000) / 100000` (both variants, railways and stations). -/
def round5 (q : ℚ) : ℚ := (jsRound (q * 100000) : ℚ) / 100000

/-- The 4-decimal dedup key component: `x.toFixed(4)` keeps the value
`jsRound (x * 10000) / 10^4`; we keep the scaled integer. -/
def key4 (q : ℚ) : ℤ := jsRound (q * 10000)

/-- A bounding box `[south, west, north, east]` as destructured from the
4-element arrays of the source. -/
structure BBox where
  s : ℚ
  w : ℚ
  n : ℚ
  e : ℚ
deriving DecidableEq, Repr

/-- Body of `for (let lat = s; lat < n; lat += step)` in `getTiles`,
collecting the successive loop-variable values.  `fuel` is an upper bound on
the iteration count; `gridStarts` supplies a provably sufficient bound when
`step > 0` (for `step ≤ 0` the source loop would not terminate). -/
def gridStartsAux (nn step : ℚ) : Nat → ℚ → List ℚ
  | 0, _ => []
  | fuel+1, lat => if lat < nn then lat :: gridStartsAux nn step fuel (lat + step) else []

/-- Values taken by the loop variable of `for (let lat = s; lat < n; lat += step)`. -/
def gridStarts (s nn step : ℚ) : List ℚ :=
  gridStartsAux nn step ((⌊(nn - s) / step⌋).toNat + 1) s

/-- Shared form of `getTiles` from both sources.  `part_000` passes
`threshold = tileSize`; `extract.js` hard-codes `threshold = 15`,
`tileSize = 10`. -/
def getTilesGen (bbox : BBox) (threshold tileSize : ℚ) : List BBox :=
  if bbox.n - bbox.s ≤ threshold ∧ bbox.e - bbox.w ≤ threshold then [bbox]
  else
    (gridStarts bbox.s bbox.n tileSize).flatMap fun lat =>
      (gridStarts bbox.w bbox.e tileSize).map fun lon =>
        ⟨lat, lon, min (lat + tileSize) bbox.n, min (lon + tileSize) bbox.e⟩

/-- getTiles of `part_000`: `getTiles(bbox, tileSize)`. -/
def getTiles (bbox : BBox) (tileSize : ℚ) : List BBox := getTilesGen bbox tileSize tileSize

/-- TILE_THRESHOLD_DEG of `extract.js`. -/
def TILE_THRESHOLD_DEG : ℚ := 15

/-- TILE_SIZE_DEG of `extract.js`. -/
def TILE_SIZE_DEG : ℚ := 10

/-- getTiles of `extract.js`: `getTiles(bbox)` with the two module constants. -/
def getTilesJS (bbox : BBox) : List BBox := getTilesGen bbox TILE_THRESHOLD_DEG TILE_SIZE_DEG

/-- An Overpass element, projecting exactly the JSON fields the source reads
(`el.type`, `el.id`, `el.lat`, `el.lon`, `el.center`, `el.geometry` and the
tag accesses `el.tags?.railway`, `el.tags?.name`, `el.tags?.['name:en']`,
`el.tags?.ref`, `el.tags?.building`).  `none` models an absent field. -/
structure Element where
  type : String
  id : ℤ
  lat : Option ℚ
  lon : Option ℚ
  center : Option (ℚ × ℚ)
  geometry : Option (List (ℚ × ℚ))
  tagRailway : Option String
  tagName : Option String
  tagNameEn : Option String
  tagRef : Option String
  tagBuilding : Option String
deriving DecidableEq, Repr

/-- Parsed response body of a successful Overpass request; `elements` is
`none` when the JSON object has no `elements` array. -/
structure OverpassData where
  elements : Option (List Element)
deriving DecidableEq, Repr

/-- Truthiness of an optional string in JavaScript: `undefined` and `""` are
falsy, every other string truthy. -/
def truthy : Option String → Bool
  | none => false
  | some s => s != ""

/-- JavaScript `a || b` on optional strings. -/
def jsOrStr (a b : Option String) : Option String := if truthy a then a else b

/-- JavaScript `a || d` where `d` is a string literal default. -/
def jsOrDefault (a : Option String) (d : String) : String :=
  match a with
  | some s => if s = "" then d else s
  | none => d

/-- A railway output record: `{id, type, geometry}` with coordinates reduced
to 5 decimals. -/
structure Segment where
  id : ℤ
  type : String
  geometry : List (ℚ × ℚ)
deriving DecidableEq, Repr

/-- Construction of one output segment from an element whose geometry passed
the length check: `type = el.tags?.railway || 'rail'`. -/
def mkSegment (el : Element) (g : List (ℚ × ℚ)) : Segment :=
  { id := el.id
    type := jsOrDefault el.tagRailway "rail"
    geometry := g.map fun p => (round5 p.1, round5 p.2) }

/-- One iteration of the per-element loop of `extractRailways` (identical in
both variants): state is `(seenIds, allWays)`. -/
def stepRailway (st : List ℤ × List Segment) (el : Element) : List ℤ × List Segment :=
  if el.id ∈ st.1 then st
  else
    match el.geometry with
    | none => (el.id :: st.1, st.2)
    | some g => if g.length < 2 then (el.id :: st.1, st.2)
                else (el.id :: st.1, st.2 ++ [mkSegment el g])

/-- One tile of `extractRailways`: `resp` is the `queryOverpass` result for
that tile; `null` or a body without `elements` is skipped (`continue`). -/
def railwayTileStep (st : List ℤ × List Segment) (resp : Option OverpassData) :
    List ℤ × List Segment :=
  match resp with
  | none => st
  | some d =>
    match d.elements with
    | none => st
    | some els => els.foldl stepRailway st

/-- Accumulation of `extractRailways` across the tiles of one country:
`responses` lists, in tile order, the parsed result of each tile's query. -/
def extractRailways (responses : List (Option OverpassData)) : List Segment :=
  (responses.foldl railwayTileStep ([], [])).2

/-- Elements of the per-tile responses in processing order, skipping the
tiles that returned `null` or no `elements`. -/
def flattenResponses (responses : List (Option OverpassData)) : List Element :=
  responses.flatMap fun r =>
    match r with
    | some d => d.elements.getD []
    | none => []

/-- Outcome of one `fetch` attempt: an HTTP response with status and parsed
body, or a thrown error (`isAbort` = timeout). -/
inductive Outcome where
  | http (status : Nat) (body : OverpassData)
  | err (isAbort : Bool)
deriving DecidableEq, Repr

/-- MAX_RETRIES (both variants). -/
def MAX_RETRIES : Nat := 3

/-- resp.ok of `fetch`: status in the range 200–299. -/
def respOk (status : Nat) : Bool := 200 ≤ status && status < 300

/-- Attempt loop of `queryOverpass` in `part_000`, one endpoint: `env ep a`
is the outcome of attempt `a` on endpoint `ep`.  Returns the parsed data (or
`none` when the endpoint is exhausted or abandoned) together with the trace
of `(endpoint, attempt)` pairs actually performed (the per-attempt progress
line of the source).  429 retries the same endpoint, status ≥ 500 breaks to
the next endpoint, other non-ok statuses retry, a thrown error retries
except on the last attempt. -/
def attemptsP (env : Nat → Nat → Outcome) (ep : Nat) :
    Nat → Nat → Option OverpassData × List (Nat × Nat)
  | 0, _ => (none, [])
  | remaining+1, attempt =>
    match env ep attempt with
    | .http status body =>
      if status = 429 then
        let r := attemptsP env ep remaining (attempt + 1)
        (r.1, (ep, attempt) :: r.2)
      else if 500 ≤ status then (none, [(ep, attempt)])
      else if respOk status = false then
        let r := attemptsP env ep remaining (attempt + 1)
        (r.1, (ep, attempt) :: r.2)
      else (some body, [(ep, attempt)])
    | .err _ =>
      if attempt = MAX_RETRIES - 1 then (none, [(ep, attempt)])
      else
        let r := attemptsP env ep remaining (attempt + 1)
        (r.1, (ep, attempt) :: r.2)

/-- queryOverpass of `part_000`: endpoints 0 (primary), 1 (mirror); on
success the data is returned at once, after both endpoints `null`. -/
def queryOverpassP (env : Nat → Nat → Outcome) : Option OverpassData × List (Nat × Nat) :=
  let r0 := attemptsP env 0 MAX_RETRIES 0
  match r0.1 with
  | some d => (some d, r0.2)
  | none =>
    let r1 := attemptsP env 1 MAX_RETRIES 0
    (r1.1, r0.2 ++ r1.2)

/-- Attempt loop of `queryOverpass` in `extract.js`: identical to `part_000`
except that only statuses 504 and 503 break to the next endpoint (any other
status ≥ 500 falls into the generic `!resp.ok` retry) and a thrown error
never breaks early. -/
def attemptsJS (env : Nat → Nat → Outcome) (ep : Nat) :
    Nat → Nat → Option OverpassData × List (Nat × Nat)
  | 0, _ => (none, [])
  | remaining+1, attempt =>
    match env ep attempt with
    | .http status body =>
      if status = 429 then
        let r := attemptsJS env ep remaining (attempt + 1)
        (r.1, (ep, attempt) :: r.2)
      else if status = 504 ∨ status = 503 then (none, [(ep, attempt)])
      else if respOk status = false then
        let r := attemptsJS env ep remaining (attempt + 1)
        (r.1, (ep, attempt) :: r.2)
      else (some body, [(ep, attempt)])
    | .err _ =>
      let r := attemptsJS env ep remaining (attempt + 1)
      (r.1, (ep, attempt) :: r.2)

/-- queryOverpass of `extract.js`. -/
def queryOverpassJS (env : Nat → Nat → Outcome) : Option OverpassData × List (Nat × Nat) :=
  let r0 := attemptsJS env 0 MAX_RETRIES 0
  match r0.1 with
  | some d => (some d, r0.2)
  | none =>
    let r1 := attemptsJS env 1 MAX_RETRIES 0
    (r1.1, r0.2 ++ r1.2)

/-- Whether an attempt outcome is a success (an HTTP response with
`resp.ok`). -/
def isSuccess : Outcome → Bool
  | .http status _ => respOk status
  | .err _ => false

/-- Lower-casing of a string, character by character, as
`name.toLowerCase()` behaves on the ASCII names used here. -/
def strLower (s : String) : String := String.mk (s.data.map Char.toLower)

/-- JavaScript `String.prototype.trim`: strip leading and trailing
whitespace. -/
def strTrim (s : String) : String :=
  String.mk ((((s.data.dropWhile Char.isWhitespace).reverse).dropWhile Char.isWhitespace).reverse)

/-- Substring containment, the effect of `str.match(/pat/)` for a literal
alternative `pat`. -/
def containsSub (s pat : String) : Bool := decide (pat.data <:+: s.data)

/-- The station-name regular expression of `extract.js`:
`name.toLowerCase().match(/station|vokzal|gar|istasyon/)`. -/
def stationNamePattern (name : String) : Bool :=
  let l := strLower name
  containsSub l "station" || containsSub l "vokzal" || containsSub l "gar" ||
    containsSub l "istasyon"

/-- A town from the gazetteer query of `extract.js`:
`{lat, lon, name: t.tags?.name || t.tags?.['name:en']}`. -/
structure Town where
  lat : ℚ
  lon : ℚ
  name : Option String
deriving DecidableEq, Repr

/-- A station output record of `extract.js`:
`{id, lat, lon, name, nameEn, type}`. -/
structure StationJS where
  id : ℤ
  lat : ℚ
  lon : ℚ
  name : String
  nameEn : Option String
  type : String
deriving DecidableEq, Repr

/-- A station output record of `part_000`:
`{id, lat, lon, name, nameLocal, type}`. -/
structure StationP where
  id : ℤ
  lat : ℚ
  lon : ℚ
  name : String
  nameLocal : Option String
  type : String
deriving DecidableEq, Repr

/-- Resolved latitude: `el.type === 'way' ? el.center?.lat : el.lat`. -/
def latOf (el : Element) : Option ℚ :=
  if el.type = "way" then el.center.map Prod.fst else el.lat

/-- Resolved longitude: `el.type === 'way' ? el.center?.lon : el.lon`. -/
def lonOf (el : Element) : Option ℚ :=
  if el.type = "way" then el.center.map Prod.snd else el.lon

/-- The guard `if (!lat || !lon) continue` of both variants: an element
survives only when both coordinates are present and nonzero (`0` is falsy). -/
def coordsOf (el : Element) : Option (ℚ × ℚ) :=
  match latOf el, lonOf el with
  | some la, some lo => if la = 0 ∨ lo = 0 then none else some (la, lo)
  | _, _ => none

/-- The dedup key `lat.toFixed(4) + ',' + lon.toFixed(4)`, kept as the pair
of scaled integers (equal keys iff equal strings, for the coordinates in
range). -/
def stationKey (la lo : ℚ) : ℤ × ℤ := (key4 la, key4 lo)

/-- The `building=train_station` proximity filter of `extract.js`: keep the
element unless it is a tagged train-station building, towns are known and no
town is within 10 km (`dist` stands for the floating-point haversine). -/
def buildingFilterKeep (dist : ℚ → ℚ → ℚ → ℚ → ℚ) (towns : List Town) (el : Element)
    (la lo : ℚ) : Bool :=
  if el.tagBuilding = some "train_station" ∧ towns ≠ [] then
    towns.any fun t => dist la lo t.lat t.lon ≤ 10
  else true

/-- The closest-town loop of `extract.js`: running minimum over the towns,
a candidate only counts when `d < minDist && d < 5`. -/
def findClosestTown (dist : ℚ → ℚ → ℚ → ℚ → ℚ) (la lo : ℚ) (towns : List Town) :
    Option Town :=
  (towns.foldl
    (fun best t =>
      let d := dist la lo t.lat t.lon
      match best with
      | none => if d < 5 then some (t, d) else none
      | some (t0, m) => if d < m ∧ d < 5 then some (t, d) else some (t0, m))
    none).map Prod.fst

/-- Name resolution of `extract.js`:
`el.tags?.name || el.tags?.['name:en'] || el.tags?.ref`, then for a falsy
name the nearest named town within 5 km gives `town.name + " Station"`;
`none` means the element is dropped (`continue`). -/
def resolveNameJS (dist : ℚ → ℚ → ℚ → ℚ → ℚ) (towns : List Town) (el : Element)
    (la lo : ℚ) : Option String :=
  let name0 := jsOrStr el.tagName (jsOrStr el.tagNameEn el.tagRef)
  if truthy name0 then some (name0.getD "")
  else
    match findClosestTown dist la lo towns with
    | some t => if truthy t.name then some (t.name.getD "" ++ " Station") else none
    | none => none

/-- Name resolution of `part_000`:
`el.tags?.['name:en'] || el.tags?.name || el.tags?.ref`, dropped when falsy,
then trimmed. -/
def resolveNameP (el : Element) : Option String :=
  let name0 := jsOrStr el.tagNameEn (jsOrStr el.tagName el.tagRef)
  if truthy name0 then some (strTrim (name0.getD "")) else none

/-- The station record stored by `extract.js`:
`nameEn = el.tags?.['name:en'] || null`, `type = el.tags?.railway || 'station'`. -/
def mkStationJS (el : Element) (la lo : ℚ) (name : String) : StationJS :=
  { id := el.id
    lat := round5 la
    lon := round5 lo
    name := name
    nameEn := if truthy el.tagNameEn then el.tagNameEn else none
    type := jsOrDefault el.tagRailway "station" }

/-- The station record stored by `part_000`:
`nameLocal = (el.tags?.name && el.tags.name !== name) ? el.tags.name : undefined`. -/
def mkStationP (el : Element) (la lo : ℚ) (name : String) : StationP :=
  { id := el.id
    lat := round5 la
    lon := round5 lo
    name := name
    nameLocal :=
      if truthy el.tagName ∧ el.tagName.getD "" ≠ name then el.tagName else none
    type := jsOrDefault el.tagRailway "station" }

/-- JavaScript `Map.set` on an insertion-ordered association list: an
existing key keeps its position and gets the new value, a new key is
appended. -/
def mapSet {κ α : Type} [DecidableEq κ] : List (κ × α) → κ → α → List (κ × α)
  | [], k, v => [(k, v)]
  | (k', v') :: rest, k, v =>
    if k' = k then (k, v) :: rest else (k', v') :: mapSet rest k v

/-- JavaScript `Map.has`. -/
def mapHas {κ α : Type} [DecidableEq κ] (m : List (κ × α)) (k : κ) : Bool :=
  m.any fun p => decide (p.1 = k)

/-- One iteration of the station loop of `extract.js`: coordinate guard,
building filter, name resolution, then
`if (!stationMap.has(key) || name.toLowerCase().match(...)) stationMap.set(key, ...)`. -/
def stepStationJS (dist : ℚ → ℚ → ℚ → ℚ → ℚ) (towns : List Town)
    (m : List ((ℤ × ℤ) × StationJS)) (el : Element) : List ((ℤ × ℤ) × StationJS) :=
  match coordsOf el with
  | none => m
  | some (la, lo) =>
    if buildingFilterKeep dist towns el la lo = false then m
    else
      match resolveNameJS dist towns el la lo with
      | none => m
      | some name =>
        let key := stationKey la lo
        if mapHas m key = false ∨ stationNamePattern name = true then
          mapSet m key (mkStationJS el la lo name)
        else m

/-- One iteration of the station loop of `part_000`: coordinate guard, name
resolution, then `if (!stationMap.has(mapKey)) stationMap.set(mapKey, ...)`
(first seen always wins). -/
def stepStationP (m : List ((ℤ × ℤ) × StationP)) (el : Element) :
    List ((ℤ × ℤ) × StationP) :=
  match coordsOf el with
  | none => m
  | some (la, lo) =>
    match resolveNameP el with
    | none => m
    | some name =>
      let key := stationKey la lo
      if mapHas m key = true then m else mapSet m key (mkStationP el la lo name)

/-- The station map of `extract.js` after the element loop. -/
def buildStationMapJS (dist : ℚ → ℚ → ℚ → ℚ → ℚ) (towns : List Town)
    (els : List Element) : List ((ℤ × ℤ) × StationJS) :=
  els.foldl (stepStationJS dist towns) []

/-- The station map of `part_000` after the element loop. -/
def buildStationMapP (els : List Element) : List ((ℤ × ℤ) × StationP) :=
  els.foldl stepStationP []

/-- extractStations of `extract.js`, from the parsed station-query elements:
`Array.from(stationMap.values()).sort((a, b) => a.name.localeCompare(b.name))`;
`nameLe` stands for the locale comparison (the JS sort is stable, as
`List.mergeSort` is). -/
def extractStationsJS (dist : ℚ → ℚ → ℚ → ℚ → ℚ) (nameLe : String → String → Bool)
    (towns : List Town) (els : List Element) : List StationJS :=
  ((buildStationMapJS dist towns els).map Prod.snd).mergeSort fun a b => nameLe a.name b.name

/-- extractStations of `part_000`, from the parsed station-query elements. -/
def extractStationsP (nameLe : String → String → Bool) (els : List Element) :
    List StationP :=
  ((buildStationMapP els).map Prod.snd).mergeSort fun a b => nameLe a.name b.name

/-! Tile Planner lemmas -/

theorem gridStartsAux_mem {nn step : ℚ} (hstep : 0 ≤ step) :
    ∀ (fuel : Nat) (s lat : ℚ), lat ∈ gridStartsAux nn step fuel s → s ≤ lat ∧ lat < nn := by
  intro fuel
  induction fuel with
  | zero => intro s lat h; simp [gridStartsAux] at h
  | succ k ih =>
    intro s lat h
    by_cases hs : s < nn
    · simp only [gridStartsAux, if_pos hs, List.mem_cons] at h
      rcases h with h | h
      · subst h; exact ⟨le_refl _, hs⟩
      · obtain ⟨h1, h2⟩ := ih (s + step) lat h
        exact ⟨by linarith, h2⟩
    · simp [gridStartsAux, hs] at h

theorem gridStartsAux_cover {nn step : ℚ} (hstep : 0 < step) :
    ∀ (fuel : Nat) (s x : ℚ), nn ≤ s + fuel * step → s < nn → s ≤ x → x ≤ nn →
      ∃ lat ∈ gridStartsAux nn step fuel s, lat ≤ x ∧ x ≤ lat + step := by
  intro fuel
  induction fuel with
  | zero =>
    intro s x hfuel hs hx1 hx2
    exfalso
    push_cast at hfuel
    linarith
  | succ k ih =>
    intro s x hfuel hs hx1 hx2
    have hcons : gridStartsAux nn step (k + 1) s = s :: gridStartsAux nn step k (s + step) := by
      simp [gridStartsAux, hs]
    by_cases hxs : x ≤ s + step
    · exact ⟨s, by rw [hcons]; exact List.mem_cons_self _ _, hx1, hxs⟩
    · push_neg at hxs
      have hs' : s + step < nn := lt_of_lt_of_le hxs hx2
      have hfuel' : nn ≤ (s + step) + k * step := by push_cast at hfuel ⊢; linarith
      obtain ⟨lat, hmem, h1, h2⟩ := ih (s + step) x hfuel' hs' hxs.le hx2
      exact ⟨lat, by rw [hcons]; exact List.mem_cons_of_mem _ hmem, h1, h2⟩

theorem gridStarts_fuel {s nn step : ℚ} (hstep : 0 < step) :
    nn ≤ s + (((⌊(nn - s) / step⌋).toNat + 1 : Nat) : ℚ) * step := by
  have h1 : (nn - s) / step < (⌊(nn - s) / step⌋ : ℚ) + 1 := Int.lt_floor_add_one _
  have h2 : ((⌊(nn - s) / step⌋ : ℤ) : ℚ) ≤ ((⌊(nn - s) / step⌋.toNat : ℕ) : ℚ) := by
    exact_mod_cast Int.self_le_toNat _
  have h3 : (nn - s) / step ≤ ((⌊(nn - s) / step⌋.toNat + 1 : ℕ) : ℚ) := by
    push_cast
    push_cast at h2
    linarith
  rw [div_le_iff₀ hstep] at h3
  push_cast
  push_cast at h3
  linarith

theorem gridStarts_mem {s nn step lat : ℚ} (hstep : 0 ≤ step)
    (h : lat ∈ gridStarts s nn step) : s ≤ lat ∧ lat < nn :=
  gridStartsAux_mem hstep _ s lat h

theorem gridStarts_cover {s nn step x : ℚ} (hstep : 0 < step) (hs : s < nn)
    (hx1 : s ≤ x) (hx2 : x ≤ nn) :
    ∃ lat ∈ gridStarts s nn step, lat ≤ x ∧ x ≤ lat + step :=
  gridStartsAux_cover hstep _ s x (gridStarts_fuel hstep) hs hx1 hx2

/-- C1: for every bounding box whose latitude span or longitude span exceeds
the tiling threshold, the tiles returned by the planner all lie inside the
box, none exceeds the tile size in either axis (the last row/column is
clipped at the north/east edge, hence possibly narrower), their union covers
the whole box (no gaps), and on the box [0,0,10,10] with tile size 6 exactly
the four tiles [0,0,6,6],[0,6,6,10],[6,0,10,6],[6,6,10,10] are produced. -/
theorem tilePlanner_covering (bbox : BBox) (threshold tileSize : ℚ)
    (hs : bbox.s < bbox.n) (hw : bbox.w < bbox.e) (hts : 0 < tileSize)
    (hspan : threshold < bbox.n - bbox.s ∨ threshold < bbox.e - bbox.w) :
    (∀ t ∈ getTilesGen bbox threshold tileSize,
        t.n - t.s ≤ tileSize ∧ t.e - t.w ≤ tileSize ∧
        bbox.s ≤ t.s ∧ t.n ≤ bbox.n ∧ bbox.w ≤ t.w ∧ t.e ≤ bbox.e) ∧
    (∀ x y : ℚ, bbox.s ≤ x → x ≤ bbox.n → bbox.w ≤ y → y ≤ bbox.e →
        ∃ t ∈ getTilesGen bbox threshold tileSize,
          t.s ≤ x ∧ x ≤ t.n ∧ t.w ≤ y ∧ y ≤ t.e) ∧
    getTiles ⟨0, 0, 10, 10⟩ 6 =
      [⟨0, 0, 6, 6⟩, ⟨0, 6, 6, 10⟩, ⟨6, 0, 10, 6⟩, ⟨6, 6, 10, 10⟩] := by
  have hcond : ¬(bbox.n - bbox.s ≤ threshold ∧ bbox.e - bbox.w ≤ threshold) := by
    rcases hspan with h | h
    · intro hc; linarith [hc.1]
    · intro hc; linarith [hc.2]
  have heq : getTilesGen bbox threshold tileSize =
      (gridStarts bbox.s bbox.n tileSize).flatMap fun lat =>
        (gridStarts bbox.w bbox.e tileSize).map fun lon =>
          ⟨lat, lon, min (lat + tileSize) bbox.n, min (lon + tileSize) bbox.e⟩ := by
    rw [getTilesGen, if_neg hcond]
  refine ⟨?_, ?_, ?_⟩
  · intro t ht
    rw [heq] at ht
    simp only [List.mem_flatMap, List.mem_map] at ht
    obtain ⟨lat, hlat, lon, hlon, rfl⟩ := ht
    obtain ⟨hlat1, hlat2⟩ := gridStarts_mem hts.le hlat
    obtain ⟨hlon1, hlon2⟩ := gridStarts_mem hts.le hlon
    refine ⟨?_, ?_, hlat1, min_le_right _ _, hlon1, min_le_right _ _⟩
    · have := min_le_left (lat + tileSize) bbox.n
      simp only
      linarith
    · have := min_le_left (lon + tileSize) bbox.e
      simp only
      linarith
  · intro x y hx1 hx2 hy1 hy2
    obtain ⟨lat, hlat, hl1, hl2⟩ := gridStarts_cover hts hs hx1 hx2
    obtain ⟨lon, hlon, hm1, hm2⟩ := gridStarts_cover hts hw hy1 hy2
    refine ⟨⟨lat, lon, min (lat + tileSize) bbox.n, min (lon + tileSize) bbox.e⟩,
      ?_, hl1, le_min hl2 hx2, hm1, le_min hm2 hy2⟩
    rw [heq]
    simp only [List.mem_flatMap, List.mem_map]
    exact ⟨lat, hlat, lon, hlon, rfl⟩
  · have hfuel : (⌊((10 : ℚ) - 0) / 6⌋).toNat + 1 = 2 := by norm_num
    have h10 : gridStarts 0 10 6 = [0, 6] := by
      rw [gridStarts, hfuel]
      norm_num [gridStartsAux]
    simp only [getTiles, getTilesGen]
    rw [if_neg (by norm_num)]
    simp only [h10, List.flatMap_cons, List.flatMap_nil, List.map_cons, List.map_nil,
      List.append_nil]
    norm_num [min_def, List.cons_append, BBox.mk.injEq]

/-- Witness for `tilePlanner_covering`: hypotheses discharged at the box
[0,0,10,10] with threshold and tile size 6. -/
theorem tilePlanner_covering_witness :
    (0 : ℚ) < 6 ∧
    getTiles ⟨0, 0, 10, 10⟩ 6 =
      [⟨0, 0, 6, 6⟩, ⟨0, 6, 6, 10⟩, ⟨6, 0, 10, 6⟩, ⟨6, 6, 10, 10⟩] :=
  ⟨by norm_num,
    (tilePlanner_covering ⟨0, 0, 10, 10⟩ 6 6 (by norm_num) (by norm_num) (by norm_num)
      (Or.inl (by norm_num))).2.2⟩

/-- C6: for a bounding box whose latitude and longitude spans are both at
most the tile size, `getTiles` (part_000) returns exactly the input box
unchanged as a single tile, `getTiles` of extract.js (threshold 15, size 10)
does the same when the spans are at most its tile size, and on [0,0,10,10]
with tile size 20 exactly [[0,0,10,10]] is returned. -/
theorem tilePlanner_small_box (bbox : BBox) (tileSize : ℚ)
    (h1 : bbox.n - bbox.s ≤ tileSize) (h2 : bbox.e - bbox.w ≤ tileSize) :
    getTiles bbox tileSize = [bbox] ∧
    (bbox.n - bbox.s ≤ TILE_SIZE_DEG → bbox.e - bbox.w ≤ TILE_SIZE_DEG →
      getTilesJS bbox = [bbox]) ∧
    getTiles ⟨0, 0, 10, 10⟩ 20 = [⟨0, 0, 10, 10⟩] := by
  refine ⟨?_, ?_, ?_⟩
  · simp only [getTiles, getTilesGen]
    rw [if_pos ⟨h1, h2⟩]
  · intro g1 g2
    simp only [getTilesJS, getTilesGen]
    rw [if_pos ?_]
    rw [TILE_SIZE_DEG] at g1 g2
    rw [TILE_THRESHOLD_DEG]
    constructor <;> linarith
  · simp only [getTiles, getTilesGen]
    rw [if_pos (by norm_num)]

/-- Witness for `tilePlanner_small_box` at the box [0,0,10,10] with tile
size 20. -/
theorem tilePlanner_small_box_witness :
    getTiles ⟨0, 0, 10, 10⟩ 20 = [⟨0, 0, 10, 10⟩] :=
  (tilePlanner_small_box ⟨0, 0, 10, 10⟩ 20 (by norm_num) (by norm_num)).1

/-! Railway Collector lemmas -/

theorem extractRailways_flatten (responses : List (Option OverpassData)) :
    ∀ st : List ℤ × List Segment,
      responses.foldl railwayTileStep st = (flattenResponses responses).foldl stepRailway st := by
  induction responses with
  | nil => intro st; rfl
  | cons r rest ih =>
    intro st
    have hflat : flattenResponses (r :: rest) =
        (match r with
          | some d => d.elements.getD []
          | none => []) ++ flattenResponses rest := by
      simp [flattenResponses]
    rw [List.foldl_cons, hflat, List.foldl_append, ih]
    congr 1
    cases r with
    | none => rfl
    | some d =>
      cases hd : d.elements with
      | none => simp [railwayTileStep, hd]
      | some els => simp [railwayTileStep, hd]

/-- State invariant of the railway loop: collected segment ids are distinct
and all recorded as seen. -/
def RailInv (st : List ℤ × List Segment) : Prop :=
  (st.2.map Segment.id).Nodup ∧ ∀ s ∈ st.2, s.id ∈ st.1

theorem stepRailway_seen_eq (st : List ℤ × List Segment) (el : Element)
    (h : el.id ∈ st.1) : stepRailway st el = st := by
  simp [stepRailway, h]

theorem stepRailway_none_eq (st : List ℤ × List Segment) (el : Element)
    (h1 : el.id ∉ st.1) (h2 : el.geometry = none) :
    stepRailway st el = (el.id :: st.1, st.2) := by
  simp [stepRailway, h1, h2]

theorem stepRailway_short_eq (st : List ℤ × List Segment) (el : Element)
    (g : List (ℚ × ℚ)) (h1 : el.id ∉ st.1) (h2 : el.geometry = some g)
    (h3 : g.length < 2) : stepRailway st el = (el.id :: st.1, st.2) := by
  simp [stepRailway, h1, h2, h3]

theorem stepRailway_push_eq (st : List ℤ × List Segment) (el : Element)
    (g : List (ℚ × ℚ)) (h1 : el.id ∉ st.1) (h2 : el.geometry = some g)
    (h3 : ¬ g.length < 2) : stepRailway st el = (el.id :: st.1, st.2 ++ [mkSegment el g]) := by
  simp [stepRailway, h1, h2, h3]

theorem stepRailway_shape (st : List ℤ × List Segment) (el : Element) :
    ((stepRailway st el).1 = st.1 ∨ (stepRailway st el).1 = el.id :: st.1) ∧
    ((stepRailway st el).2 = st.2 ∨
      ∃ g, el.geometry = some g ∧ 2 ≤ g.length ∧ el.id ∉ st.1 ∧
        (stepRailway st el).2 = st.2 ++ [mkSegment el g]) := by
  by_cases hmem : el.id ∈ st.1
  · rw [stepRailway_seen_eq st el hmem]
    exact ⟨Or.inl rfl, Or.inl rfl⟩
  · cases hg : el.geometry with
    | none =>
      rw [stepRailway_none_eq st el hmem hg]
      exact ⟨Or.inr rfl, Or.inl rfl⟩
    | some g =>
      by_cases hlen : g.length < 2
      · rw [stepRailway_short_eq st el g hmem hg hlen]
        exact ⟨Or.inr rfl, Or.inl rfl⟩
      · rw [stepRailway_push_eq st el g hmem hg hlen]
        exact ⟨Or.inr rfl, Or.inr ⟨g, rfl, by omega, hmem, rfl⟩⟩

theorem stepRailway_inv (st : List ℤ × List Segment) (el : Element) (h : RailInv st) :
    RailInv (stepRailway st el) := by
  obtain ⟨hnd, hin⟩ := h
  by_cases hmem : el.id ∈ st.1
  · rw [stepRailway_seen_eq st el hmem]
    exact ⟨hnd, hin⟩
  · cases hg : el.geometry with
    | none =>
      rw [stepRailway_none_eq st el hmem hg]
      exact ⟨hnd, fun s hs => List.mem_cons_of_mem _ (hin s hs)⟩
    | some g =>
      by_cases hlen : g.length < 2
      · rw [stepRailway_short_eq st el g hmem hg hlen]
        exact ⟨hnd, fun s hs => List.mem_cons_of_mem _ (hin s hs)⟩
      · rw [stepRailway_push_eq st el g hmem hg hlen]
        constructor
        · have hnotin : ¬ el.id ∈ st.2.map Segment.id := by
            intro hc
            obtain ⟨s, hs, hsid⟩ := List.mem_map.mp hc
            exact hmem (hsid ▸ hin s hs)
          simp only [List.map_append, List.nodup_append, List.map_cons, List.map_nil]
          refine ⟨hnd, List.nodup_singleton _, ?_⟩
          intro a ha hb
          simp only [mkSegment, List.mem_singleton] at hb
          exact hnotin (hb ▸ ha)
        · intro s hs
          rcases List.mem_append.mp hs with h | h
          · exact List.mem_cons_of_mem _ (hin s h)
          · simp only [List.mem_singleton] at h
            subst h
            exact List.mem_cons_self _ _

theorem foldl_stepRailway_inv (els : List Element) :
    ∀ st : List ℤ × List Segment, RailInv st → RailInv (els.foldl stepRailway st) := by
  induction els with
  | nil => intro st h; exact h
  | cons el rest ih => intro st h; exact ih _ (stepRailway_inv st el h)

theorem foldl_stepRailway_count_stable (i : ℤ) (els : List Element) :
    ∀ st : List ℤ × List Segment, i ∈ st.1 →
      ((els.foldl stepRailway st).2.map Segment.id).count i = (st.2.map Segment.id).count i ∧
        i ∈ (els.foldl stepRailway st).1 := by
  induction els with
  | nil => intro st h; exact ⟨rfl, h⟩
  | cons el rest ih =>
    intro st h
    rw [List.foldl_cons]
    obtain ⟨hshape1, hshape2⟩ := stepRailway_shape st el
    have hseen : i ∈ (stepRailway st el).1 := by
      rcases hshape1 with he | he <;> rw [he]
      · exact h
      · exact List.mem_cons_of_mem _ h
    have hcount : ((stepRailway st el).2.map Segment.id).count i = (st.2.map Segment.id).count i := by
      rcases hshape2 with he | ⟨g, _, _, hnotin, he⟩
      · rw [he]
      · rw [he]
        have hne : i ≠ el.id := fun hc => hnotin (hc ▸ h)
        have hz : (([mkSegment el g]).map Segment.id).count i = 0 := by
          rw [List.count_eq_zero]
          simp [mkSegment, hne]
        rw [List.map_append, List.count_append, hz, Nat.add_zero]
    obtain ⟨hc, hm⟩ := ih (stepRailway st el) hseen
    exact ⟨hc.trans hcount, hm⟩

theorem foldl_stepRailway_count_one (el : Element) (g : List (ℚ × ℚ))
    (hg : el.geometry = some g) (hlen : 2 ≤ g.length) :
    ∀ (els : List Element) (st : List ℤ × List Segment),
      el.id ∉ st.1 → (st.2.map Segment.id).count el.id = 0 →
      el ∈ els → (∀ x ∈ els, x.id = el.id → x = el) →
      ((els.foldl stepRailway st).2.map Segment.id).count el.id = 1 := by
  intro els
  induction els with
  | nil => intro st _ _ hmem _; simp at hmem
  | cons x rest ih =>
    intro st hseen hcount hmem huniq
    rw [List.foldl_cons]
    by_cases hxid : x.id = el.id
    · have hxel : x = el := huniq x (List.mem_cons_self _ _) hxid
      subst hxel
      rw [stepRailway_push_eq st x g hseen hg (by omega)]
      have hstable := foldl_stepRailway_count_stable x.id rest (x.id :: st.1, st.2 ++ [mkSegment x g])
        (List.mem_cons_self _ _)
      rw [hstable.1]
      simp [List.map_append, List.count_append, mkSegment, hcount]
    · obtain ⟨hshape1, hshape2⟩ := stepRailway_shape st x
      have hseen' : el.id ∉ (stepRailway st x).1 := by
        rcases hshape1 with he | he <;> rw [he]
        · exact hseen
        · intro hc
          rcases List.mem_cons.mp hc with hc | hc
          · exact hxid hc.symm
          · exact hseen hc
      have hcount' : ((stepRailway st x).2.map Segment.id).count el.id = 0 := by
        rcases hshape2 with he | ⟨g', _, _, _, he⟩
        · rw [he]
          exact hcount
        · rw [he]
          have hz : (([mkSegment x g']).map Segment.id).count el.id = 0 := by
            rw [List.count_eq_zero]
            simp only [mkSegment, List.map_cons, List.map_nil, List.mem_singleton]
            exact fun hc => hxid hc.symm
          rw [List.map_append, List.count_append, hz, hcount]
      have hmem' : el ∈ rest := by
        rcases List.mem_cons.mp hmem with h | h
        · exact absurd (congrArg Element.id h.symm) hxid
        · exact h
      exact ih (stepRailway st x) hseen' hcount' hmem'
        fun y hy hyid => huniq y (List.mem_cons_of_mem _ hy) hyid

theorem foldl_stepRailway_trace (els : List Element) :
    ∀ (st : List ℤ × List Segment) (s : Segment), s ∈ (els.foldl stepRailway st).2 →
      s ∈ st.2 ∨ ∃ el ∈ els, ∃ g, el.geometry = some g ∧ 2 ≤ g.length ∧ s = mkSegment el g := by
  induction els with
  | nil => intro st s hs; exact Or.inl hs
  | cons x rest ih =>
    intro st s hs
    rw [List.foldl_cons] at hs
    rcases ih (stepRailway st x) s hs with h | h
    · rcases (stepRailway_shape st x).2 with he | ⟨g, hg, hlen, _, he⟩
      · rw [he] at h
        exact Or.inl h
      · rw [he] at h
        rcases List.mem_append.mp h with h | h
        · exact Or.inl h
        · simp only [List.mem_singleton] at h
          exact Or.inr ⟨x, List.mem_cons_self _ _, g, hg, hlen, h⟩
    · obtain ⟨e, he, hrest⟩ := h
      exact Or.inr ⟨e, List.mem_cons_of_mem _ he, hrest⟩

/-- C2: within one country's railway run, no two output segments share an
identifier, and feeding the same raw feature (same id, valid geometry)
several times — in the same tile or across tiles — yields exactly one
segment with that id. -/
theorem railwayDedup (rs : List (Option OverpassData)) (el : Element) (g : List (ℚ × ℚ))
    (hg : el.geometry = some g) (hlen : 2 ≤ g.length)
    (hmem : el ∈ flattenResponses rs)
    (huniq : ∀ x ∈ flattenResponses rs, x.id = el.id → x = el) :
    ((extractRailways rs).map Segment.id).Nodup ∧
    ((extractRailways rs).map Segment.id).count el.id = 1 := by
  constructor
  · have h := foldl_stepRailway_inv (flattenResponses rs) ([], []) ⟨List.nodup_nil, by simp⟩
    unfold extractRailways
    rw [extractRailways_flatten]
    exact h.1
  · unfold extractRailways
    rw [extractRailways_flatten]
    exact foldl_stepRailway_count_one el g hg hlen (flattenResponses rs) ([], [])
      (by simp) (by simp) hmem huniq

/-- A two-point way geometry used by concrete witnesses. -/
def gWit : List (ℚ × ℚ) := [(1, 2), (3, 4)]

/-- A valid railway way element used by concrete witnesses. -/
def elWit : Element :=
  { type := "way", id := 7, lat := none, lon := none, center := none,
    geometry := some gWit, tagRailway := some "rail", tagName := none,
    tagNameEn := none, tagRef := none, tagBuilding := none }

/-- Two tiles both returning `elWit` (a feature straddling the shared edge). -/
def rsWit : List (Option OverpassData) := [some ⟨some [elWit]⟩, some ⟨some [elWit]⟩]

/-- Witness for `railwayDedup`: the same feature returned by two adjacent
tiles produces exactly one segment with its id. -/
theorem railwayDedup_witness :
    elWit ∈ flattenResponses rsWit ∧
    ((extractRailways rsWit).map Segment.id).count elWit.id = 1 := by
  have hmem : elWit ∈ flattenResponses rsWit := by simp [flattenResponses, rsWit]
  have huniq : ∀ x ∈ flattenResponses rsWit, x.id = elWit.id → x = elWit := by
    intro x hx _
    simp [flattenResponses, rsWit] at hx
    exact hx
  exact ⟨hmem, (railwayDedup rsWit elWit gWit rfl (by simp [gWit]) hmem huniq).2⟩

/-- C9: every output segment of the railway collector has at least two
geometry points, and every output segment comes from an input feature whose
geometry was present with at least two points (features with missing or
degenerate geometry produce no segment). -/
theorem railwayGeometryLen (rs : List (Option OverpassData)) (s : Segment)
    (hs : s ∈ extractRailways rs) :
    2 ≤ s.geometry.length ∧
    ∃ el ∈ flattenResponses rs, el.id = s.id ∧ ∃ g, el.geometry = some g ∧ 2 ≤ g.length ∧
      s.geometry = g.map fun p => (round5 p.1, round5 p.2) := by
  unfold extractRailways at hs
  rw [extractRailways_flatten] at hs
  rcases foldl_stepRailway_trace (flattenResponses rs) ([], []) s hs with h | h
  · simp at h
  · obtain ⟨el, hel, g, hg, hlen, rfl⟩ := h
    refine ⟨?_, el, hel, rfl, g, hg, hlen, rfl⟩
    simpa [mkSegment] using hlen

/-- Witness for `railwayGeometryLen` at the concrete two-tile run. -/
theorem railwayGeometryLen_witness :
    mkSegment elWit gWit ∈ extractRailways rsWit ∧
    2 ≤ (mkSegment elWit gWit).geometry.length := by
  have hmem : mkSegment elWit gWit ∈ extractRailways rsWit := by
    simp [extractRailways, rsWit, railwayTileStep, stepRailway, elWit, gWit]
  exact ⟨hmem, (railwayGeometryLen rsWit (mkSegment elWit gWit) hmem).1⟩

/-! Query Client lemmas -/

theorem attemptsP_exhaust (env : Nat → Nat → Outcome) (ep : Nat) :
    ∀ remaining attempt : Nat,
      (∀ a, a < attempt + remaining → isSuccess (env ep a) = false) →
      (attemptsP env ep remaining attempt).1 = none := by
  intro remaining
  induction remaining with
  | zero => intro attempt _; rfl
  | succ k ih =>
    intro attempt h
    unfold attemptsP
    cases henv : env ep attempt with
    | http status body =>
      dsimp only
      by_cases h429 : status = 429
      · rw [if_pos h429]
        simpa using ih (attempt + 1) fun a ha => h a (by omega)
      · rw [if_neg h429]
        by_cases h5 : 500 ≤ status
        · rw [if_pos h5]
        · rw [if_neg h5]
          by_cases hok : respOk status = false
          · rw [if_pos hok]
            simpa using ih (attempt + 1) fun a ha => h a (by omega)
          · exfalso
            have hsucc := h attempt (by omega)
            rw [henv] at hsucc
            simp only [isSuccess] at hsucc
            exact hok hsucc
    | err b =>
      dsimp only
      by_cases hlast : attempt = MAX_RETRIES - 1
      · rw [if_pos hlast]
      · rw [if_neg hlast]
        simpa using ih (attempt + 1) fun a ha => h a (by omega)

theorem attemptsJS_exhaust (env : Nat → Nat → Outcome) (ep : Nat) :
    ∀ remaining attempt : Nat,
      (∀ a, a < attempt + remaining → isSuccess (env ep a) = false) →
      (attemptsJS env ep remaining attempt).1 = none := by
  intro remaining
  induction remaining with
  | zero => intro attempt _; rfl
  | succ k ih =>
    intro attempt h
    unfold attemptsJS
    cases henv : env ep attempt with
    | http status body =>
      dsimp only
      by_cases h429 : status = 429
      · rw [if_pos h429]
        simpa using ih (attempt + 1) fun a ha => h a (by omega)
      · rw [if_neg h429]
        by_cases h34 : status = 504 ∨ status = 503
        · rw [if_pos h34]
        · rw [if_neg h34]
          by_cases hok : respOk status = false
          · rw [if_pos hok]
            simpa using ih (attempt + 1) fun a ha => h a (by omega)
          · exfalso
            have hsucc := h attempt (by omega)
            rw [henv] at hsucc
            simp only [isSuccess] at hsucc
            exact hok hsucc
    | err b =>
      dsimp only
      simpa using ih (attempt + 1) fun a ha => h a (by omega)

/-- C3: when no attempt on any endpoint succeeds, both variants of the Query
Client return the `null` sentinel (no exception is possible in this total
model), and the Railway Collector treats a `null` — or `elements`-free —
tile result as zero features: deleting such a response from the tile list
leaves the output unchanged, so later tiles are still processed. -/
theorem queryClient_soft_failure (env : Nat → Nat → Outcome)
    (h : ∀ ep a, ep < 2 → a < MAX_RETRIES → isSuccess (env ep a) = false)
    (xs ys : List (Option OverpassData)) :
    (queryOverpassP env).1 = none ∧ (queryOverpassJS env).1 = none ∧
    extractRailways (xs ++ none :: ys) = extractRailways (xs ++ ys) ∧
    extractRailways (xs ++ some ⟨none⟩ :: ys) = extractRailways (xs ++ ys) := by
  have hp0 : (attemptsP env 0 MAX_RETRIES 0).1 = none :=
    attemptsP_exhaust env 0 MAX_RETRIES 0 fun a ha => h 0 a (by omega) (by omega)
  have hp1 : (attemptsP env 1 MAX_RETRIES 0).1 = none :=
    attemptsP_exhaust env 1 MAX_RETRIES 0 fun a ha => h 1 a (by omega) (by omega)
  have hj0 : (attemptsJS env 0 MAX_RETRIES 0).1 = none :=
    attemptsJS_exhaust env 0 MAX_RETRIES 0 fun a ha => h 0 a (by omega) (by omega)
  have hj1 : (attemptsJS env 1 MAX_RETRIES 0).1 = none :=
    attemptsJS_exhaust env 1 MAX_RETRIES 0 fun a ha => h 1 a (by omega) (by omega)
  refine ⟨?_, ?_, ?_, ?_⟩
  · simp only [queryOverpassP]
    rw [hp0]
    simpa using hp1
  · simp only [queryOverpassJS]
    rw [hj0]
    simpa using hj1
  · unfold extractRailways
    rw [List.foldl_append, List.foldl_append, List.foldl_cons]
    rfl
  · unfold extractRailways
    rw [List.foldl_append, List.foldl_append, List.foldl_cons]
    rfl

/-- An environment in which every attempt times out. -/
def envFail : Nat → Nat → Outcome := fun _ _ => .err true

/-- Witness for `queryClient_soft_failure`: with every attempt timing out,
both clients return `none`, and a `null` tile response between two real
tile responses contributes nothing. -/
theorem queryClient_soft_failure_witness :
    (queryOverpassP envFail).1 = none ∧ (queryOverpassJS envFail).1 = none ∧
    extractRailways ([some ⟨some [elWit]⟩] ++ none :: [some ⟨some [elWit]⟩]) =
      extractRailways ([some ⟨some [elWit]⟩] ++ [some ⟨some [elWit]⟩]) := by
  have h := queryClient_soft_failure envFail (fun ep a _ _ => rfl)
    [some ⟨some [elWit]⟩] [some ⟨some [elWit]⟩]
  exact ⟨h.1, h.2.1, h.2.2.1⟩

theorem attemptsP_server_break (env : Nat → Nat → Outcome) (ep attempt remaining : Nat)
    (status : Nat) (body : OverpassData)
    (henv : env ep attempt = .http status body) (h5 : 500 ≤ status) :
    attemptsP env ep (remaining + 1) attempt = (none, [(ep, attempt)]) := by
  unfold attemptsP
  rw [henv]
  dsimp only
  rw [if_neg (by omega), if_pos h5]

theorem attemptsJS_server_break (env : Nat → Nat → Outcome) (ep attempt remaining : Nat)
    (status : Nat) (body : OverpassData)
    (henv : env ep attempt = .http status body) (h34 : status = 504 ∨ status = 503) :
    attemptsJS env ep (remaining + 1) attempt = (none, [(ep, attempt)]) := by
  unfold attemptsJS
  rw [henv]
  dsimp only
  rw [if_neg (by rcases h34 with h | h <;> omega), if_pos h34]

/-- C4 (amended): in the part_000 variant, an HTTP status ≥ 500 on the first
attempt of the primary endpoint makes the client perform no further attempt
on that endpoint — the endpoint loop ends with `null` after exactly that one
attempt, and the overall query continues with the second endpoint only.  In
the extract.js variant this immediate abandonment happens only for statuses
504 and 503. -/
theorem serverError_failover (env : Nat → Nat → Outcome) (status : Nat) (body : OverpassData)
    (henv : env 0 0 = .http status body) (h5 : 500 ≤ status) :
    attemptsP env 0 MAX_RETRIES 0 = (none, [(0, 0)]) ∧
    queryOverpassP env =
      ((attemptsP env 1 MAX_RETRIES 0).1, (0, 0) :: (attemptsP env 1 MAX_RETRIES 0).2) ∧
    (status = 504 ∨ status = 503 → attemptsJS env 0 MAX_RETRIES 0 = (none, [(0, 0)])) := by
  have ha : attemptsP env 0 MAX_RETRIES 0 = (none, [(0, 0)]) :=
    attemptsP_server_break env 0 0 2 status body henv h5
  refine ⟨ha, ?_, ?_⟩
  · simp only [queryOverpassP]
    rw [ha]
    simp
  · intro h34
    exact attemptsJS_server_break env 0 0 2 status body henv h34

/-- A successful response body used by the endpoint-failover scenario. -/
def dataWit : OverpassData := ⟨some []⟩

/-- An environment returning HTTP 500 on the primary endpoint's first
attempt and HTTP 200 on its second attempt. -/
def env500 : Nat → Nat → Outcome := fun ep a =>
  if ep = 0 ∧ a = 0 then .http 500 ⟨none⟩
  else if ep = 0 ∧ a = 1 then .http 200 dataWit
  else .err true

/-- Counterexample to C4 as stated: in the extract.js variant a plain HTTP
500 does not abandon the endpoint — after receiving 500 on attempt 0 of
endpoint 0 the client performs attempt 1 on the same endpoint (the trace
contains (0,1)) and returns that attempt's body. -/
theorem serverError_counterexample :
    env500 0 0 = .http 500 ⟨none⟩ ∧
    queryOverpassJS env500 = (some dataWit, [(0, 0), (0, 1)]) := by
  constructor
  · rfl
  · rfl

/-- Witness for `serverError_failover`: with the 500-then-200 environment,
the part_000 client abandons endpoint 0 after the single 500 attempt. -/
theorem serverError_failover_witness :
    attemptsP env500 0 MAX_RETRIES 0 = (none, [(0, 0)]) :=
  (serverError_failover env500 500 ⟨none⟩ rfl (by omega)).1

/-! Station Collector lemmas -/

theorem mapHas_iff {κ α : Type} [DecidableEq κ] (m : List (κ × α)) (k : κ) :
    mapHas m k = true ↔ k ∈ m.map Prod.fst := by
  simp only [mapHas, List.any_eq_true, decide_eq_true_eq, List.mem_map]

theorem mapSet_keys_of_has {κ α : Type} [DecidableEq κ] :
    ∀ (m : List (κ × α)) (k : κ) (v : α), mapHas m k = true →
      (mapSet m k v).map Prod.fst = m.map Prod.fst := by
  intro m
  induction m with
  | nil => intro k v h; simp [mapHas] at h
  | cons p rest ih =>
    intro k v h
    obtain ⟨k', v'⟩ := p
    by_cases hk : k' = k
    · simp [mapSet, hk]
    · have h' : mapHas rest k = true := by
        simp only [mapHas, List.any_cons, decide_eq_true_eq, Bool.or_eq_true] at h
        rcases h with h | h
        · exact absurd h hk
        · simpa [mapHas] using h
      simp [mapSet, hk, ih k v h']

theorem mapSet_keys_of_not {κ α : Type} [DecidableEq κ] :
    ∀ (m : List (κ × α)) (k : κ) (v : α), mapHas m k = false →
      (mapSet m k v).map Prod.fst = m.map Prod.fst ++ [k] := by
  intro m
  induction m with
  | nil => intro k v _; rfl
  | cons p rest ih =>
    intro k v h
    obtain ⟨k', v'⟩ := p
    simp only [mapHas, List.any_cons, Bool.or_eq_false_iff, decide_eq_false_iff_not] at h
    obtain ⟨hk, hrest⟩ := h
    simp [mapSet, hk, ih k v (by simpa [mapHas] using hrest)]

theorem mapSet_keys_nodup {κ α : Type} [DecidableEq κ] (m : List (κ × α)) (k : κ) (v : α)
    (h : (m.map Prod.fst).Nodup) : ((mapSet m k v).map Prod.fst).Nodup := by
  by_cases hh : mapHas m k = true
  · rw [mapSet_keys_of_has m k v hh]
    exact h
  · rw [mapSet_keys_of_not m k v (by simpa using hh)]
    rw [List.nodup_append]
    refine ⟨h, List.nodup_singleton _, ?_⟩
    intro a ha hb
    simp only [List.mem_singleton] at hb
    subst hb
    exact hh ((mapHas_iff m a).mpr ha)

theorem mem_mapSet {κ α : Type} [DecidableEq κ] :
    ∀ (m : List (κ × α)) (k : κ) (v : α) (p : κ × α),
      p ∈ mapSet m k v → p ∈ m ∨ p = (k, v) := by
  intro m
  induction m with
  | nil =>
    intro k v p hp
    simp only [mapSet, List.mem_singleton] at hp
    exact Or.inr hp
  | cons q rest ih =>
    intro k v p hp
    obtain ⟨k', v'⟩ := q
    by_cases hk : k' = k
    · simp only [mapSet, if_pos hk, List.mem_cons] at hp
      rcases hp with h | h
      · exact Or.inr h
      · exact Or.inl (List.mem_cons_of_mem _ h)
    · simp only [mapSet, if_neg hk, List.mem_cons] at hp
      rcases hp with h | h
      · exact Or.inl (by simp [h])
      · rcases ih k v p h with h2 | h2
        · exact Or.inl (List.mem_cons_of_mem _ h2)
        · exact Or.inr h2

theorem nodupKeys_foldl {κ α β : Type} [DecidableEq κ] (f : List (κ × α) → β → List (κ × α))
    (hf : ∀ m b, f m b = m ∨ ∃ k v, f m b = mapSet m k v) (bs : List β) :
    ∀ m : List (κ × α), (m.map Prod.fst).Nodup → ((bs.foldl f m).map Prod.fst).Nodup := by
  induction bs with
  | nil => intro m h; exact h
  | cons b rest ih =>
    intro m h
    rw [List.foldl_cons]
    apply ih
    rcases hf m b with he | ⟨k, v, he⟩
    · rw [he]; exact h
    · rw [he]
      exact mapSet_keys_nodup m k v h

theorem stepStationJS_nocoords (dist : ℚ → ℚ → ℚ → ℚ → ℚ) (towns : List Town)
    (m : List ((ℤ × ℤ) × StationJS)) (el : Element) (hc : coordsOf el = none) :
    stepStationJS dist towns m el = m := by
  simp [stepStationJS, hc]

theorem stepStationJS_filtered (dist : ℚ → ℚ → ℚ → ℚ → ℚ) (towns : List Town)
    (m : List ((ℤ × ℤ) × StationJS)) (el : Element) (la lo : ℚ)
    (hc : coordsOf el = some (la, lo))
    (hb : buildingFilterKeep dist towns el la lo = false) :
    stepStationJS dist towns m el = m := by
  simp [stepStationJS, hc, hb]

theorem stepStationJS_noname (dist : ℚ → ℚ → ℚ → ℚ → ℚ) (towns : List Town)
    (m : List ((ℤ × ℤ) × StationJS)) (el : Element) (la lo : ℚ)
    (hc : coordsOf el = some (la, lo))
    (hb : buildingFilterKeep dist towns el la lo = true)
    (hn : resolveNameJS dist towns el la lo = none) :
    stepStationJS dist towns m el = m := by
  simp [stepStationJS, hc, hb, hn]

theorem stepStationJS_set (dist : ℚ → ℚ → ℚ → ℚ → ℚ) (towns : List Town)
    (m : List ((ℤ × ℤ) × StationJS)) (el : Element) (la lo : ℚ) (name : String)
    (hc : coordsOf el = some (la, lo))
    (hb : buildingFilterKeep dist towns el la lo = true)
    (hn : resolveNameJS dist towns el la lo = some name)
    (hcond : mapHas m (stationKey la lo) = false ∨ stationNamePattern name = true) :
    stepStationJS dist towns m el = mapSet m (stationKey la lo) (mkStationJS el la lo name) := by
  simp [stepStationJS, hc, hb, hn, hcond]

theorem stepStationJS_keep (dist : ℚ → ℚ → ℚ → ℚ → ℚ) (towns : List Town)
    (m : List ((ℤ × ℤ) × StationJS)) (el : Element) (la lo : ℚ) (name : String)
    (hc : coordsOf el = some (la, lo))
    (hb : buildingFilterKeep dist towns el la lo = true)
    (hn : resolveNameJS dist towns el la lo = some name)
    (hhas : mapHas m (stationKey la lo) = true)
    (hpat : stationNamePattern name = false) :
    stepStationJS dist towns m el = m := by
  simp [stepStationJS, hc, hb, hn, hhas, hpat]

theorem stepStationJS_cases (dist : ℚ → ℚ → ℚ → ℚ → ℚ) (towns : List Town)
    (m : List ((ℤ × ℤ) × StationJS)) (el : Element) :
    stepStationJS dist towns m el = m ∨
    ∃ la lo name, coordsOf el = some (la, lo) ∧
      resolveNameJS dist towns el la lo = some name ∧
      stepStationJS dist towns m el = mapSet m (stationKey la lo) (mkStationJS el la lo name) := by
  cases hc : coordsOf el with
  | none => exact Or.inl (stepStationJS_nocoords dist towns m el hc)
  | some p =>
    obtain ⟨la, lo⟩ := p
    by_cases hb : buildingFilterKeep dist towns el la lo = true
    · cases hn : resolveNameJS dist towns el la lo with
      | none => exact Or.inl (stepStationJS_noname dist towns m el la lo hc hb hn)
      | some name =>
        by_cases hcond : mapHas m (stationKey la lo) = false ∨ stationNamePattern name = true
        · exact Or.inr ⟨la, lo, name, rfl, hn,
            stepStationJS_set dist towns m el la lo name hc hb hn hcond⟩
        · push_neg at hcond
          obtain ⟨hhas, hpat⟩ := hcond
          exact Or.inl (stepStationJS_keep dist towns m el la lo name hc hb hn
            (by simpa using hhas) (by simpa using hpat))
    · exact Or.inl (stepStationJS_filtered dist towns m el la lo hc (by simpa using hb))

theorem stepStationP_nocoords (m : List ((ℤ × ℤ) × StationP)) (el : Element)
    (hc : coordsOf el = none) : stepStationP m el = m := by
  simp [stepStationP, hc]

theorem stepStationP_noname (m : List ((ℤ × ℤ) × StationP)) (el : Element) (la lo : ℚ)
    (hc : coordsOf el = some (la, lo)) (hn : resolveNameP el = none) :
    stepStationP m el = m := by
  simp [stepStationP, hc, hn]

theorem stepStationP_set (m : List ((ℤ × ℤ) × StationP)) (el : Element) (la lo : ℚ)
    (name : String) (hc : coordsOf el = some (la, lo)) (hn : resolveNameP el = some name)
    (hhas : mapHas m (stationKey la lo) = false) :
    stepStationP m el = mapSet m (stationKey la lo) (mkStationP el la lo name) := by
  simp [stepStationP, hc, hn, hhas]

theorem stepStationP_keep (m : List ((ℤ × ℤ) × StationP)) (el : Element) (la lo : ℚ)
    (name : String) (hc : coordsOf el = some (la, lo)) (hn : resolveNameP el = some name)
    (hhas : mapHas m (stationKey la lo) = true) :
    stepStationP m el = m := by
  simp [stepStationP, hc, hn, hhas]

theorem stepStationP_cases (m : List ((ℤ × ℤ) × StationP)) (el : Element) :
    stepStationP m el = m ∨
    ∃ la lo name, coordsOf el = some (la, lo) ∧ resolveNameP el = some name ∧
      stepStationP m el = mapSet m (stationKey la lo) (mkStationP el la lo name) := by
  cases hc : coordsOf el with
  | none => exact Or.inl (stepStationP_nocoords m el hc)
  | some p =>
    obtain ⟨la, lo⟩ := p
    cases hn : resolveNameP el with
    | none => exact Or.inl (stepStationP_noname m el la lo hc hn)
    | some name =>
      by_cases hhas : mapHas m (stationKey la lo) = true
      · exact Or.inl (stepStationP_keep m el la lo name hc hn hhas)
      · exact Or.inr ⟨la, lo, name, rfl, rfl,
          stepStationP_set m el la lo name hc hn (by simpa using hhas)⟩

theorem append_station_ne_empty (s : String) : s ++ " Station" ≠ "" := by
  intro h
  have h2 : (s ++ " Station").data = ("" : String).data := by rw [h]
  rw [String.data_append] at h2
  simp at h2

theorem truthy_getD_ne_empty (o : Option String) (h : truthy o = true) : o.getD "" ≠ "" := by
  cases o with
  | none => simp [truthy] at h
  | some s =>
    simp only [truthy, bne_iff_ne] at h
    simpa using h

theorem resolveNameJS_ne_empty (dist : ℚ → ℚ → ℚ → ℚ → ℚ) (towns : List Town)
    (el : Element) (la lo : ℚ) (name : String)
    (h : resolveNameJS dist towns el la lo = some name) : name ≠ "" := by
  unfold resolveNameJS at h
  by_cases ht : truthy (jsOrStr el.tagName (jsOrStr el.tagNameEn el.tagRef)) = true
  · rw [if_pos ht] at h
    have hn : name = (jsOrStr el.tagName (jsOrStr el.tagNameEn el.tagRef)).getD "" := by
      injection h with h
      exact h.symm
    rw [hn]
    exact truthy_getD_ne_empty _ ht
  · rw [if_neg ht] at h
    cases hf : findClosestTown dist la lo towns with
    | none =>
      rw [hf] at h
      simp at h
    | some t =>
      rw [hf] at h
      dsimp only at h
      by_cases htn : truthy t.name = true
      · rw [if_pos htn] at h
        injection h with h
        rw [← h]
        exact append_station_ne_empty _
      · rw [if_neg htn] at h
        simp at h

theorem foldStationJS_names (dist : ℚ → ℚ → ℚ → ℚ → ℚ) (towns : List Town)
    (els : List Element) :
    ∀ m : List ((ℤ × ℤ) × StationJS), (∀ p ∈ m, (Prod.snd p).name ≠ "") →
      ∀ p ∈ els.foldl (stepStationJS dist towns) m, (Prod.snd p).name ≠ "" := by
  induction els with
  | nil => intro m h; exact h
  | cons el rest ih =>
    intro m h
    rw [List.foldl_cons]
    apply ih
    intro p hp
    rcases stepStationJS_cases dist towns m el with he | ⟨la, lo, name, _, hn, he⟩
    · rw [he] at hp
      exact h p hp
    · rw [he] at hp
      rcases mem_mapSet _ _ _ _ hp with h2 | h2
      · exact h p h2
      · rw [h2]
        exact resolveNameJS_ne_empty dist towns el la lo name hn

theorem foldStationP_names (els : List Element) :
    ∀ m : List ((ℤ × ℤ) × StationP),
      (∀ el ∈ els, resolveNameP el ≠ some "") → (∀ p ∈ m, (Prod.snd p).name ≠ "") →
      ∀ p ∈ els.foldl stepStationP m, (Prod.snd p).name ≠ "" := by
  induction els with
  | nil => intro m _ h; exact h
  | cons el rest ih =>
    intro m hres h
    rw [List.foldl_cons]
    apply ih _ fun e he => hres e (List.mem_cons_of_mem _ he)
    intro p hp
    rcases stepStationP_cases m el with he | ⟨la, lo, name, _, hn, he⟩
    · rw [he] at hp
      exact h p hp
    · rw [he] at hp
      rcases mem_mapSet _ _ _ _ hp with h2 | h2
      · exact h p h2
      · rw [h2]
        intro hc
        exact hres el (List.mem_cons_self _ _) (hn.trans (congrArg some hc))

/-- C8 (amended): in the extract.js variant every output station has a
nonempty resolved display name, for every input; in the part_000 variant the
name is never undefined but can be the empty string when a feature's only
name tag is whitespace-only (trim runs after the presence check) — it is
nonempty whenever no input feature resolves to a whitespace-only name. -/
theorem stationNames_resolved (dist : ℚ → ℚ → ℚ → ℚ → ℚ) (nameLe : String → String → Bool)
    (towns : List Town) (els : List Element) :
    (∀ st ∈ extractStationsJS dist nameLe towns els, st.name ≠ "") ∧
    ((∀ el ∈ els, resolveNameP el ≠ some "") →
      ∀ st ∈ extractStationsP nameLe els, st.name ≠ "") := by
  constructor
  · intro st hst
    unfold extractStationsJS at hst
    have hmem := (List.mergeSort_perm ((buildStationMapJS dist towns els).map Prod.snd)
      fun a b => nameLe a.name b.name).mem_iff.mp hst
    obtain ⟨p, hp, rfl⟩ := List.mem_map.mp hmem
    exact foldStationJS_names dist towns els [] (by simp) p hp
  · intro hres st hst
    unfold extractStationsP at hst
    have hmem := (List.mergeSort_perm ((buildStationMapP els).map Prod.snd)
      fun a b => nameLe a.name b.name).mem_iff.mp hst
    obtain ⟨p, hp, rfl⟩ := List.mem_map.mp hmem
    exact foldStationP_names els [] hres (by simp) p hp

theorem buildTwo_JS (dist : ℚ → ℚ → ℚ → ℚ → ℚ) (towns : List Town) (e1 e2 : Element)
    (la1 lo1 la2 lo2 : ℚ) (n1 n2 : String)
    (h1c : coordsOf e1 = some (la1, lo1))
    (h1b : buildingFilterKeep dist towns e1 la1 lo1 = true)
    (h1n : resolveNameJS dist towns e1 la1 lo1 = some n1)
    (h2c : coordsOf e2 = some (la2, lo2))
    (h2b : buildingFilterKeep dist towns e2 la2 lo2 = true)
    (h2n : resolveNameJS dist towns e2 la2 lo2 = some n2)
    (hkey : stationKey la2 lo2 = stationKey la1 lo1) :
    buildStationMapJS dist towns [e1, e2] =
      [if stationNamePattern n2 = true
        then (stationKey la2 lo2, mkStationJS e2 la2 lo2 n2)
        else (stationKey la1 lo1, mkStationJS e1 la1 lo1 n1)] := by
  unfold buildStationMapJS
  rw [List.foldl_cons, List.foldl_cons, List.foldl_nil]
  rw [stepStationJS_set dist towns [] e1 la1 lo1 n1 h1c h1b h1n (Or.inl rfl)]
  rw [show mapSet ([] : List ((ℤ × ℤ) × StationJS)) (stationKey la1 lo1)
      (mkStationJS e1 la1 lo1 n1) = [(stationKey la1 lo1, mkStationJS e1 la1 lo1 n1)] from rfl]
  by_cases hp : stationNamePattern n2 = true
  · rw [stepStationJS_set dist towns _ e2 la2 lo2 n2 h2c h2b h2n (Or.inr hp)]
    rw [if_pos hp]
    simp [mapSet, hkey]
  · have hhas : mapHas [(stationKey la1 lo1, mkStationJS e1 la1 lo1 n1)]
        (stationKey la2 lo2) = true := by
      rw [hkey]
      simp [mapHas]
    rw [stepStationJS_keep dist towns _ e2 la2 lo2 n2 h2c h2b h2n hhas (by simpa using hp)]
    rw [if_neg hp]

theorem buildTwo_P (e1 e2 : Element) (la1 lo1 la2 lo2 : ℚ) (m1 m2 : String)
    (h1c : coordsOf e1 = some (la1, lo1)) (h2c : coordsOf e2 = some (la2, lo2))
    (hkey : stationKey la2 lo2 = stationKey la1 lo1)
    (hm1 : resolveNameP e1 = some m1) (hm2 : resolveNameP e2 = some m2) :
    buildStationMapP [e1, e2] = [(stationKey la1 lo1, mkStationP e1 la1 lo1 m1)] := by
  unfold buildStationMapP
  rw [List.foldl_cons, List.foldl_cons, List.foldl_nil]
  rw [stepStationP_set [] e1 la1 lo1 m1 h1c hm1 rfl]
  rw [show mapSet ([] : List ((ℤ × ℤ) × StationP)) (stationKey la1 lo1)
      (mkStationP e1 la1 lo1 m1) = [(stationKey la1 lo1, mkStationP e1 la1 lo1 m1)] from rfl]
  have hhas : mapHas [(stationKey la1 lo1, mkStationP e1 la1 lo1 m1)]
      (stationKey la2 lo2) = true := by
    rw [hkey]
    simp [mapHas]
  rw [stepStationP_keep _ e2 la2 lo2 m2 h2c hm2 hhas]

/-- C5 (amended): on a 4-decimal bucket collision in extract.js, the newly
seen candidate replaces the incumbent exactly when the NEW candidate's name
matches the station pattern — so a matching candidate beats a non-matching
incumbent, a non-matching candidate never replaces (first seen wins), but
when both match the LAST seen wins, not the first; in the part_000 variant
there is no lexical tie-break at all and the first seen always wins. -/
theorem stationTieBreak (dist : ℚ → ℚ → ℚ → ℚ → ℚ) (nameLe : String → String → Bool)
    (towns : List Town) (e1 e2 : Element) (la1 lo1 la2 lo2 : ℚ) (n1 n2 : String)
    (h1c : coordsOf e1 = some (la1, lo1))
    (h1b : buildingFilterKeep dist towns e1 la1 lo1 = true)
    (h1n : resolveNameJS dist towns e1 la1 lo1 = some n1)
    (h2c : coordsOf e2 = some (la2, lo2))
    (h2b : buildingFilterKeep dist towns e2 la2 lo2 = true)
    (h2n : resolveNameJS dist towns e2 la2 lo2 = some n2)
    (hkey : stationKey la2 lo2 = stationKey la1 lo1) :
    extractStationsJS dist nameLe towns [e1, e2] =
      [if stationNamePattern n2 = true then mkStationJS e2 la2 lo2 n2
       else mkStationJS e1 la1 lo1 n1] ∧
    (∀ m1 m2, resolveNameP e1 = some m1 → resolveNameP e2 = some m2 →
      extractStationsP nameLe [e1, e2] = [mkStationP e1 la1 lo1 m1]) := by
  constructor
  · unfold extractStationsJS
    rw [buildTwo_JS dist towns e1 e2 la1 lo1 la2 lo2 n1 n2 h1c h1b h1n h2c h2b h2n hkey]
    by_cases hp : stationNamePattern n2 = true
    · rw [if_pos hp, if_pos hp]
      simp
    · rw [if_neg hp, if_neg hp]
      simp
  · intro m1 m2 hm1 hm2
    unfold extractStationsP
    rw [buildTwo_P e1 e2 la1 lo1 la2 lo2 m1 m2 h1c h2c hkey hm1 hm2]
    simp

/-- C7: in both variants the station map never holds two entries with the
same rounded-coordinate key (at most one station per 4-decimal bucket), and
two accepted features falling in the same bucket yield exactly one output
station. -/
theorem stationKeyUnique (dist : ℚ → ℚ → ℚ → ℚ → ℚ) (nameLe : String → String → Bool)
    (towns : List Town) (els : List Element) (e1 e2 : Element)
    (la1 lo1 la2 lo2 : ℚ) (n1 n2 : String)
    (h1c : coordsOf e1 = some (la1, lo1))
    (h1b : buildingFilterKeep dist towns e1 la1 lo1 = true)
    (h1n : resolveNameJS dist towns e1 la1 lo1 = some n1)
    (h2c : coordsOf e2 = some (la2, lo2))
    (h2b : buildingFilterKeep dist towns e2 la2 lo2 = true)
    (h2n : resolveNameJS dist towns e2 la2 lo2 = some n2)
    (hkey : stationKey la2 lo2 = stationKey la1 lo1) :
    ((buildStationMapJS dist towns els).map Prod.fst).Nodup ∧
    ((buildStationMapP els).map Prod.fst).Nodup ∧
    (extractStationsJS dist nameLe towns [e1, e2]).length = 1 ∧
    (∀ m1 m2, resolveNameP e1 = some m1 → resolveNameP e2 = some m2 →
      (extractStationsP nameLe [e1, e2]).length = 1) := by
  refine ⟨?_, ?_, ?_, ?_⟩
  · have hf : ∀ (m : List ((ℤ × ℤ) × StationJS)) (b : Element),
        stepStationJS dist towns m b = m ∨ ∃ k v, stepStationJS dist towns m b = mapSet m k v := by
      intro m b
      rcases stepStationJS_cases dist towns m b with he | ⟨la, lo, name, _, _, he⟩
      · exact Or.inl he
      · exact Or.inr ⟨_, _, he⟩
    exact nodupKeys_foldl (stepStationJS dist towns) hf els [] (by simp)
  · have hf : ∀ (m : List ((ℤ × ℤ) × StationP)) (b : Element),
        stepStationP m b = m ∨ ∃ k v, stepStationP m b = mapSet m k v := by
      intro m b
      rcases stepStationP_cases m b with he | ⟨la, lo, name, _, _, he⟩
      · exact Or.inl he
      · exact Or.inr ⟨_, _, he⟩
    exact nodupKeys_foldl stepStationP hf els [] (by simp)
  · unfold extractStationsJS
    rw [buildTwo_JS dist towns e1 e2 la1 lo1 la2 lo2 n1 n2 h1c h1b h1n h2c h2b h2n hkey]
    simp [List.length_mergeSort]
  · intro m1 m2 hm1 hm2
    unfold extractStationsP
    rw [buildTwo_P e1 e2 la1 lo1 la2 lo2 m1 m2 h1c h2c hkey hm1 hm2]
    simp [List.length_mergeSort]

/-- C10: both station collectors silently drop any element whose resolved
latitude or longitude is missing (a way without a center) or is exactly 0
(the falsy-0 artifact of `if (!lat || !lon)`): removing such an element from
the input leaves the output unchanged, whatever its name and tags. -/
theorem stationZeroCoordDrop (dist : ℚ → ℚ → ℚ → ℚ → ℚ) (nameLe : String → String → Bool)
    (towns : List Town) (xs ys : List Element) (el : Element)
    (h : latOf el = none ∨ latOf el = some 0 ∨ lonOf el = none ∨ lonOf el = some 0) :
    extractStationsJS dist nameLe towns (xs ++ el :: ys) =
      extractStationsJS dist nameLe towns (xs ++ ys) ∧
    extractStationsP nameLe (xs ++ el :: ys) = extractStationsP nameLe (xs ++ ys) := by
  have hc : coordsOf el = none := by
    unfold coordsOf
    cases hlat : latOf el with
    | none => rfl
    | some la =>
      cases hlon : lonOf el with
      | none => rfl
      | some lo =>
        have hz : la = 0 ∨ lo = 0 := by
          rcases h with h | h | h | h
          · rw [hlat] at h
            exact absurd h (by simp)
          · rw [hlat] at h
            injection h with h
            exact Or.inl h
          · rw [hlon] at h
            exact absurd h (by simp)
          · rw [hlon] at h
            injection h with h
            exact Or.inr h
        simp [hz]
  constructor
  · unfold extractStationsJS buildStationMapJS
    rw [List.foldl_append, List.foldl_append, List.foldl_cons,
      stepStationJS_nocoords dist towns _ el hc]
  · unfold extractStationsP buildStationMapP
    rw [List.foldl_append, List.foldl_append, List.foldl_cons,
      stepStationP_nocoords _ el hc]

/-! Concrete station inputs for witnesses and counterexamples -/

/-- Stand-in for the haversine distance in concrete runs (never consulted by
the elements below, which all carry names and no building tag). -/
def distWit : ℚ → ℚ → ℚ → ℚ → ℚ := fun _ _ _ _ => 0

/-- Stand-in for the locale comparison in concrete runs. -/
def nameLeWit : String → String → Bool := fun _ _ => true

/-- A first station candidate at (1,1) with a pattern-matching name. -/
def eA : Element :=
  { type := "node", id := 1, lat := some 1, lon := some 1, center := none,
    geometry := none, tagRailway := some "station", tagName := some "Alpha Station",
    tagNameEn := none, tagRef := none, tagBuilding := none }

/-- A second station candidate in the same 4-decimal bucket, its name also
matching the pattern. -/
def eB : Element :=
  { type := "node", id := 2, lat := some 1, lon := some 1, center := none,
    geometry := none, tagRailway := some "station", tagName := some "Beta Station",
    tagNameEn := none, tagRef := none, tagBuilding := none }

/-- A station element whose only name tag is a single space. -/
def elBlank : Element :=
  { type := "node", id := 11, lat := some 1, lon := some 1, center := none,
    geometry := none, tagRailway := some "station", tagName := none,
    tagNameEn := some " ", tagRef := none, tagBuilding := none }

/-- A named node element sitting exactly on latitude 0. -/
def elZero : Element :=
  { type := "node", id := 13, lat := some 0, lon := some 5, center := none,
    geometry := none, tagRailway := some "station", tagName := some "Zero Station",
    tagNameEn := none, tagRef := none, tagBuilding := none }

theorem eA_coords : coordsOf eA = some (1, 1) := by
  simp [coordsOf, latOf, lonOf, eA]

theorem eB_coords : coordsOf eB = some (1, 1) := by
  simp [coordsOf, latOf, lonOf, eB]

theorem buildingFilterKeep_no_towns (dist : ℚ → ℚ → ℚ → ℚ → ℚ) (el : Element)
    (la lo : ℚ) : buildingFilterKeep dist [] el la lo = true := by
  simp [buildingFilterKeep]

theorem eA_name : resolveNameJS distWit [] eA 1 1 = some "Alpha Station" := by decide

theorem eB_name : resolveNameJS distWit [] eB 1 1 = some "Beta Station" := by decide

/-- Counterexample to C5 as stated: two candidates in the same bucket whose
names BOTH match the station pattern — the second-seen candidate (id 2)
survives, not the first-seen one the claim requires. -/
theorem stationTieBreak_counterexample :
    stationNamePattern "Alpha Station" = true ∧
    stationNamePattern "Beta Station" = true ∧
    (extractStationsJS distWit nameLeWit [] [eA, eB]).map StationJS.id = [2] := by
  refine ⟨by decide, by decide, ?_⟩
  unfold extractStationsJS
  rw [buildTwo_JS distWit [] eA eB 1 1 1 1 "Alpha Station" "Beta Station"
    eA_coords (buildingFilterKeep_no_towns distWit eA 1 1) eA_name
    eB_coords (buildingFilterKeep_no_towns distWit eB 1 1) eB_name rfl]
  rw [if_pos (by decide)]
  simp [mkStationJS, eB]

/-- Witness for `stationTieBreak` at the two concrete colliding candidates. -/
theorem stationTieBreak_witness :
    extractStationsJS distWit nameLeWit [] [eA, eB] =
      [if stationNamePattern "Beta Station" = true then mkStationJS eB 1 1 "Beta Station"
       else mkStationJS eA 1 1 "Alpha Station"] :=
  (stationTieBreak distWit nameLeWit [] eA eB 1 1 1 1 "Alpha Station" "Beta Station"
    eA_coords (buildingFilterKeep_no_towns distWit eA 1 1) eA_name
    eB_coords (buildingFilterKeep_no_towns distWit eB 1 1) eB_name rfl).1

/-- Witness for `stationKeyUnique`: the two colliding candidates yield a
single station and distinct map keys. -/
theorem stationKeyUnique_witness :
    ((buildStationMapJS distWit [] [eA, eB]).map Prod.fst).Nodup ∧
    (extractStationsJS distWit nameLeWit [] [eA, eB]).length = 1 := by
  have h := stationKeyUnique distWit nameLeWit [] [eA, eB] eA eB 1 1 1 1
    "Alpha Station" "Beta Station"
    eA_coords (buildingFilterKeep_no_towns distWit eA 1 1) eA_name
    eB_coords (buildingFilterKeep_no_towns distWit eB 1 1) eB_name rfl
  exact ⟨h.1, h.2.2.1⟩

theorem elBlank_coords : coordsOf elBlank = some (1, 1) := by
  simp [coordsOf, latOf, lonOf, elBlank]

/-- Counterexample to C8 as stated: in part_000 a feature whose only name
tag is the single space " " passes the presence check and is trimmed to the
empty string, so the output contains a station whose name is "". -/
theorem stationEmptyName_counterexample :
    resolveNameP elBlank = some "" ∧
    (extractStationsP nameLeWit [elBlank]).map StationP.name = [""] := by
  refine ⟨by decide, ?_⟩
  unfold extractStationsP buildStationMapP
  rw [List.foldl_cons, List.foldl_nil,
    stepStationP_set [] elBlank 1 1 "" elBlank_coords (by decide) rfl]
  simp [mapSet, mkStationP]

/-- Witness for `stationNames_resolved` on a single well-named candidate. -/
theorem stationNames_resolved_witness :
    (∀ st ∈ extractStationsJS distWit nameLeWit [] [eA], st.name ≠ "") ∧
    (∀ st ∈ extractStationsP nameLeWit [eA], st.name ≠ "") := by
  have h := stationNames_resolved distWit nameLeWit [] [eA]
  refine ⟨h.1, h.2 ?_⟩
  intro el hel
  simp only [List.mem_singleton] at hel
  subst hel
  decide

/-- Witness for `stationZeroCoordDrop`: a named node at latitude exactly 0
is dropped by both collectors. -/
theorem stationZeroCoordDrop_witness :
    extractStationsJS distWit nameLeWit [] ([eA] ++ elZero :: []) =
      extractStationsJS distWit nameLeWit [] ([eA] ++ []) ∧
    extractStationsP nameLeWit ([eA] ++ elZero :: []) = extractStationsP nameLeWit ([eA] ++ []) :=
  stationZeroCoordDrop distWit nameLeWit [] [eA] [] elZero
    (Or.inr (Or.inl (by simp [latOf, elZero])))

end AsiaRail
